import Mathlib

/-!
Verification of the opaque-union runtime engine (`src/index.ts`).

The engine manipulates untyped JavaScript values: every generated
constructor builds a plain object carrying a fixed marker, a name tag, a
variation tag and the caller-supplied payload; guards, isomorphisms and
lenses inspect those objects at runtime.  We embed the dynamic fragment of
JavaScript the engine touches — objects as ordered association lists with
unique keys, property lookup, property assignment, object spread and rest
destructuring — and translate each generated function from the source.
Guards are modelled in `Except Unit` because the `in` operator throws a
`TypeError` when its right operand is `null`, and `typeof null === 'object'`
lets `null` reach it.
-/

namespace OpaqueUnion

/-- A JavaScript runtime value, as far as the engine observes it: `null`,
`undefined`, booleans, numbers, strings, and plain objects — own enumerable
string-keyed properties in insertion order, keys unique. -/
inductive Value where
  | vNull : Value
  | vUndefined : Value
  | vBool : Bool → Value
  | vNum : Int → Value
  | vStr : String → Value
  | vObj : List (String × Value) → Value

/-- Property lookup on an object's field list (`key in obj`, `obj[key]`).
JavaScript objects have unique keys, so the first match is the only one. -/
def getProp? {β : Type} : List (String × β) → String → Option β
  | [], _ => none
  | (k, v) :: rest, key => if k = key then some v else getProp? rest key

/-- JavaScript property assignment, as performed by `{ ...obj, [key]: v }`
and `Object.assign`: an existing key is updated in place (its position is
kept), a new key is appended at the end. -/
def setProp {β : Type} : List (String × β) → String → β → List (String × β)
  | [], key, v => [(key, v)]
  | (k, w) :: rest, key, v =>
      if k = key then (k, v) :: rest else (k, w) :: setProp rest key v

/-- Property access `thing.key`: `undefined` when the property is missing or
the receiver is a primitive.  (The engine only dereferences entity objects
and tagged values with this.) -/
def jsGet (thing : Value) (key : String) : Value :=
  match thing with
  | .vObj fields => (getProp? fields key).getD .vUndefined
  | _ => .vUndefined

/-- The own enumerable properties contributed by `...v` inside an object
literal: an object's fields, a string's indexed characters, nothing for the
other primitives. -/
def spreadFields : Value → List (String × Value)
  | .vObj fields => fields
  | .vStr s => s.toList.enum.map (fun p => (toString p.1, Value.vStr (String.singleton p.2)))
  | _ => []

/-- `{ <base fields>, ...v }`: assign each spread property onto the literal
in order. -/
def spreadInto (base : List (String × Value)) (v : Value) : List (String × Value) :=
  (spreadFields v).foldl (fun acc p => setProp acc p.1 p.2) base

/-! ## Constructors (src/index.ts 613-696)

Every constructor path builds the same object literal
`{ __OPAQUE__: '__OPAQUE__', __OPAQUE_KEY__: name, __OPAQUE_VARIATION__:
variation, value }`. -/

/-- The entity object literal shared by all constructors (src 623-628,
635-640, 651-656, 662-667, 678-684). -/
def mkEntity (name variation payload : Value) : Value :=
  .vObj [("__OPAQUE__", .vStr "__OPAQUE__"), ("__OPAQUE_KEY__", name),
         ("__OPAQUE_VARIATION__", variation), ("value", payload)]

/-- `of(name, variation, value)` — the global constructor `ofAll`
(src 677-684).  Names and variations reaching it through the generated API
are the schema's `Object.keys`, hence strings. -/
def ofAll (name variation : String) (value : Value) : Value :=
  mkEntity (.vStr name) (.vStr variation) value

/-- `of[name](...)` — `defaultOf` inside `ofsTypes` (src 615-629).  It is a
`function` reading `arguments.length`: with at most one argument the
argument becomes the payload and the variation becomes the literal
`'default'`; with two (or more) the first is the variation.  The argument
list models `arguments`. -/
def ofNameCall (name : String) : List Value → Value
  | [] => mkEntity (.vStr name) (.vStr "default") .vUndefined
  | [value] => mkEntity (.vStr name) (.vStr "default") value
  | variation :: value :: _ => mkEntity (.vStr name) variation value

/-- `of[name][variation](value)` (src 635-640). -/
def ofNameVariation (name variation : String) (value : Value) : Value :=
  mkEntity (.vStr name) (.vStr variation) value

/-- `of[variation](name, value)` — `defaultOf` inside `ofsVariations`
(src 651-656); an arrow function, so no arity overload. -/
def ofVariationCall (variation name : String) (value : Value) : Value :=
  mkEntity (.vStr name) (.vStr variation) value

/-- `of[variation][name](value)` (src 662-667). -/
def ofVariationName (variation name : String) (value : Value) : Value :=
  mkEntity (.vStr name) (.vStr variation) value

/-! ## Schema normalizer (src/index.ts 610-611) -/

/-- A raw schema as `ofVariations` receives it: names to variation tables in
key insertion order (keys unique, as in any JavaScript object); the table
values are payload-type placeholders, runtime `undefined`. -/
abbrev Schema := List (String × List (String × Value))

/-- `const names = Object.keys(types)` (src 610). -/
def namesOf (types : Schema) : List String := types.map Prod.fst

/-- `const variations = Object.keys(types[names[0]])` (src 611): the
variation keys of the first name's table, in that table's insertion order.
No other name's table is consulted.  (On an empty schema the source would
throw — `Object.keys(undefined)` — before producing anything; the claims
only concern non-empty schemas.) -/
def variationsOf : Schema → List String
  | [] => []
  | (_, table) :: _ => table.map Prod.fst

/-! ## Guards (src/index.ts 698-887)

All guards begin with `typeof thing !== 'object'` — which `null` passes,
since `typeof null === 'object'` — and then apply the `in` operator, which
throws a `TypeError` on `null`.  We model evaluation in `Except Unit`:
`.error ()` is a thrown `TypeError`. -/

/-- JavaScript strict equality `x === k` between an arbitrary value and a
string constant: true exactly for the equal string. -/
def strictEqStr : Value → String → Bool
  | .vStr s, t => s == t
  | _, _ => false

/-- The shape test shared by every guard (src 704-714 and clones):
`'__OPAQUE__' in thing && thing.__OPAQUE__ === '__OPAQUE__' &&
'__OPAQUE_KEY__' in thing && '__OPAQUE_VARIATION__' in thing`. -/
def hasEntityShape (fields : List (String × Value)) : Bool :=
  (getProp? fields "__OPAQUE__").isSome &&
    strictEqStr ((getProp? fields "__OPAQUE__").getD .vUndefined) "__OPAQUE__" &&
    (getProp? fields "__OPAQUE_KEY__").isSome &&
    (getProp? fields "__OPAQUE_VARIATION__").isSome

/-- `list.includes(x)` / `list.indexOf(x) !== -1` where `list` holds the
schema's string keys: only an equal string matches. -/
def includesStr (l : List String) : Value → Bool
  | .vStr s => l.contains s
  | _ => false

/-- The global guard `is(thing)` — `isAll` (src 840-875).  `null` has
`typeof 'object'` and reaches `'__OPAQUE__' in thing`, which throws; every
other non-object returns `false` at the `typeof` test. -/
def isGlobal (names variations : List String) : Value → Except Unit Bool
  | .vNull => .error ()
  | .vObj fields =>
      if !hasEntityShape fields then .ok false
      else if !includesStr names ((getProp? fields "__OPAQUE_KEY__").getD .vUndefined) then
        .ok false
      else if includesStr variations ((getProp? fields "__OPAQUE_VARIATION__").getD .vUndefined) then
        .ok true
      else .ok false
  | _ => .ok false

/-- `is[name](thing)` — `defaultIs` inside `isTypes` (src 699-727): shape
test, then `__OPAQUE_KEY__ !== name` rejects, then
`variations.includes(__OPAQUE_VARIATION__)` accepts. -/
def isName (name : String) (variations : List String) : Value → Except Unit Bool
  | .vNull => .error ()
  | .vObj fields =>
      if !hasEntityShape fields then .ok false
      else if !strictEqStr ((getProp? fields "__OPAQUE_KEY__").getD .vUndefined) name then
        .ok false
      else if includesStr variations ((getProp? fields "__OPAQUE_VARIATION__").getD .vUndefined) then
        .ok true
      else .ok false
  | _ => .ok false

/-- `is[name][variation](thing)` (src 732-760) and the identical
`is[variation][name](thing)` (src 803-831): shape test, key must equal
`name`, variation must equal `variation`. -/
def isNameVariation (name variation : String) : Value → Except Unit Bool
  | .vNull => .error ()
  | .vObj fields =>
      if !hasEntityShape fields then .ok false
      else if !strictEqStr ((getProp? fields "__OPAQUE_KEY__").getD .vUndefined) name then
        .ok false
      else if strictEqStr ((getProp? fields "__OPAQUE_VARIATION__").getD .vUndefined) variation then
        .ok true
      else .ok false
  | _ => .ok false

/-- `is[variation](thing)` — `defaultIs` inside `isVariations`
(src 770-798): shape test, then `__OPAQUE_VARIATION__ !== variation`
rejects, then `names.includes(__OPAQUE_KEY__)` accepts. -/
def isVariation (variation : String) (names : List String) : Value → Except Unit Bool
  | .vNull => .error ()
  | .vObj fields =>
      if !hasEntityShape fields then .ok false
      else if !strictEqStr ((getProp? fields "__OPAQUE_VARIATION__").getD .vUndefined) variation then
        .ok false
      else if includesStr names ((getProp? fields "__OPAQUE_KEY__").getD .vUndefined) then
        .ok true
      else .ok false
  | _ => .ok false

/-! ## Optics (src/index.ts 895-953, 1039-1076)

The global isomorphism (src 1039-1064): forward, build
`{ _tag: e.__OPAQUE_KEY__, _variation: e.__OPAQUE_VARIATION__, ...e.value }`;
backward, split `_tag`/`_variation` off by rest-destructuring and rewrap the
remaining fields as the payload of a fresh entity.

`lensFromProp` (src 1066-1076) composes that isomorphism with monocle-ts's
`Lens.fromProp()(prop)`, which is
`new Lens(s => s[prop], a => s => Object.assign({}, s, { [prop]: a }))`;
`iso.composeLens(lens)` yields `get = lens.get ∘ iso.get` and
`set a = iso.reverseGet ∘ lens.set a ∘ iso.get`. -/

/-- Forward direction of the global isomorphism (src 1043-1051). -/
def isoGet (entity : Value) : Value :=
  .vObj (spreadInto
    [("_tag", jsGet entity "__OPAQUE_KEY__"),
     ("_variation", jsGet entity "__OPAQUE_VARIATION__")]
    (jsGet entity "value"))

/-- Rest-destructuring `{ _tag, _variation, ...value }`: the own enumerable
fields other than `_tag` and `_variation`, in order; an empty object when the
scrutinee is a primitive. -/
def restWithoutTags : Value → List (String × Value)
  | .vObj fields => fields.filter (fun p => !(p.1 == "_tag") && !(p.1 == "_variation"))
  | _ => []

/-- Backward direction of the global isomorphism (src 1054-1063). -/
def isoReverseGet (tagged : Value) : Value :=
  mkEntity (jsGet tagged "_tag") (jsGet tagged "_variation") (.vObj (restWithoutTags tagged))

/-- Forward direction of every scoped (per name-and-variation) isomorphism
(src 896-898): read the entity's `value` property; no `_tag`/`_variation`
wrapping.  Its backward direction is the scoped constructor
`ofNameVariation` itself (src 928, 932). -/
def scopedGet (entity : Value) : Value := jsGet entity "value"

/-- `Object.assign({}, s, { [key]: v })` — the set direction of monocle-ts's
`Lens.fromProp`. -/
def objAssign (o : Value) (key : String) (v : Value) : Value :=
  .vObj (setProp (spreadFields o) key v)

/-- `lensFromProp(prop).get` (src 1066-1076, composed with the global iso). -/
def lensFromPropGet (prop : String) (entity : Value) : Value :=
  jsGet (isoGet entity) prop

/-- `lensFromProp(prop).set(a)` (src 1066-1076, composed with the global
iso). -/
def lensFromPropSet (prop : String) (a : Value) (entity : Value) : Value :=
  isoReverseGet (objAssign (isoGet entity) prop a)

/-! ## Association-list lemmas -/

theorem setProp_of_not_mem {β : Type} (l : List (String × β)) (k : String) (v : β)
    (h : k ∉ l.map Prod.fst) : setProp l k v = l ++ [(k, v)] := by
  induction l with
  | nil => rfl
  | cons p rest ih =>
      obtain ⟨k1, w⟩ := p
      simp only [List.map_cons, List.mem_cons] at h
      push_neg at h
      simp [setProp, Ne.symm h.1, ih h.2]

theorem getProp?_setProp_self {β : Type} (l : List (String × β)) (k : String) (v : β) :
    getProp? (setProp l k v) k = some v := by
  induction l with
  | nil => simp [setProp, getProp?]
  | cons p rest ih =>
      obtain ⟨k1, w⟩ := p
      by_cases h : k1 = k
      · simp [setProp, h, getProp?]
      · simp [setProp, h, getProp?, ih]

theorem map_fst_setProp_of_mem {β : Type} (l : List (String × β)) (k : String) (v : β)
    (h : k ∈ l.map Prod.fst) : (setProp l k v).map Prod.fst = l.map Prod.fst := by
  induction l with
  | nil => cases h
  | cons p rest ih =>
      obtain ⟨k1, w⟩ := p
      by_cases hk : k1 = k
      · simp [setProp, hk]
      · simp only [List.map_cons, List.mem_cons] at h
        rcases h with h | h
        · exact absurd h.symm hk
        · simp [setProp, hk, ih h]

theorem setProp_append_of_not_mem_left {β : Type} (l1 l2 : List (String × β)) (k : String)
    (v : β) (h : k ∉ l1.map Prod.fst) :
    setProp (l1 ++ l2) k v = l1 ++ setProp l2 k v := by
  induction l1 with
  | nil => rfl
  | cons p rest ih =>
      obtain ⟨k1, w⟩ := p
      simp only [List.map_cons, List.mem_cons] at h
      push_neg at h
      simp [setProp, Ne.symm h.1, ih h.2]

theorem getProp?_append_of_not_mem_left {β : Type} (l1 l2 : List (String × β)) (k : String)
    (h : k ∉ l1.map Prod.fst) : getProp? (l1 ++ l2) k = getProp? l2 k := by
  induction l1 with
  | nil => rfl
  | cons p rest ih =>
      obtain ⟨k1, w⟩ := p
      simp only [List.map_cons, List.mem_cons] at h
      push_neg at h
      simp [getProp?, Ne.symm h.1, ih h.2]

theorem foldl_setProp_append (fs : List (String × Value)) (base : List (String × Value))
    (hnd : (fs.map Prod.fst).Nodup)
    (hfresh : ∀ k ∈ fs.map Prod.fst, k ∉ base.map Prod.fst) :
    fs.foldl (fun acc p => setProp acc p.1 p.2) base = base ++ fs := by
  induction fs generalizing base with
  | nil => simp
  | cons p rest ih =>
      obtain ⟨k1, w⟩ := p
      simp only [List.map_cons, List.nodup_cons] at hnd
      have hb : k1 ∉ base.map Prod.fst := hfresh k1 (by simp)
      have step : setProp base k1 w = base ++ [(k1, w)] := setProp_of_not_mem base k1 w hb
      simp only [List.foldl_cons, step]
      rw [ih (base ++ [(k1, w)]) hnd.2 ?fresh2]
      · simp
      case fresh2 =>
        intro k hk
        simp only [List.map_append, List.map_cons, List.map_nil, List.mem_append,
          List.mem_singleton]
        push_neg
        constructor
        · exact hfresh k (by simp [hk])
        · intro hkk
          exact hnd.1 (hkk ▸ hk)

/-- Spreading an object with fresh, duplicate-free keys onto a literal just
appends its fields. -/
theorem spreadInto_obj (base fs : List (String × Value))
    (hnd : (fs.map Prod.fst).Nodup)
    (hfresh : ∀ k ∈ fs.map Prod.fst, k ∉ base.map Prod.fst) :
    spreadInto base (.vObj fs) = base ++ fs :=
  foldl_setProp_append fs base hnd hfresh

/-- Evaluating the forward isomorphism on a constructed entity whose payload
is an object with duplicate-free keys avoiding `_tag`/`_variation`. -/
theorem isoGet_entity (n v : String) (gs : List (String × Value))
    (hnd : (gs.map Prod.fst).Nodup)
    (ht : "_tag" ∉ gs.map Prod.fst) (hvr : "_variation" ∉ gs.map Prod.fst) :
    isoGet (ofAll n v (.vObj gs)) =
      .vObj (("_tag", .vStr n) :: ("_variation", .vStr v) :: gs) := by
  have h1 : isoGet (ofAll n v (.vObj gs)) =
      .vObj (spreadInto [("_tag", .vStr n), ("_variation", .vStr v)] (.vObj gs)) := rfl
  rw [h1, spreadInto_obj _ gs hnd ?fresh]
  · rfl
  case fresh =>
    intro k hk hmem
    simp only [List.map_cons, List.map_nil, List.mem_cons, List.not_mem_nil, or_false] at hmem
    rcases hmem with h | h
    · exact ht (h ▸ hk)
    · exact hvr (h ▸ hk)

/-- Evaluating the backward isomorphism on a tagged value whose remaining
fields avoid `_tag`/`_variation`. -/
theorem isoReverseGet_tagged (n v : String) (gs : List (String × Value))
    (ht : "_tag" ∉ gs.map Prod.fst) (hvr : "_variation" ∉ gs.map Prod.fst) :
    isoReverseGet (.vObj (("_tag", .vStr n) :: ("_variation", .vStr v) :: gs)) =
      ofAll n v (.vObj gs) := by
  have hrest : restWithoutTags (.vObj (("_tag", Value.vStr n) :: ("_variation", Value.vStr v) :: gs)) = gs := by
    show (("_tag", Value.vStr n) :: ("_variation", Value.vStr v) :: gs).filter
        (fun p => !(p.1 == "_tag") && !(p.1 == "_variation")) = gs
    rw [List.filter_cons_of_neg (by simp), List.filter_cons_of_neg (by simp)]
    refine List.filter_eq_self.mpr fun p hp => ?_
    simp only [Bool.and_eq_true, Bool.not_eq_true', beq_eq_false_iff_ne]
    exact ⟨fun h => ht (h ▸ List.mem_map_of_mem Prod.fst hp),
           fun h => hvr (h ▸ List.mem_map_of_mem Prod.fst hp)⟩
  show mkEntity _ _ _ = _
  rw [hrest]
  rfl

/-! ## Heap model for the schema algebra (src/index.ts 599-1088, 1123-1294)

`pick`, `omit`, `merge` and `omitVariations` are claimed to be pure and
non-mutating.  To state that, we model the JavaScript heap: a store of
objects addressed by allocation order.  The algebra operations read the
input bundle's `types` object, build a filtered/merged types object with
`reduce` and object spread — allocating a fresh object at every step and
never assigning into a pre-existing one — and hand the result to
`ofVariations`, which allocates the generated tables and bundle and only
ever assigns properties on objects it has just allocated (`ofAll[name] =
...`, `defaultOf[variation] = ...`, etc.).  Generated closures capture only
strings and allocate on call, so they are modelled as inert leaves. -/

/-- A heap value: an inert leaf (primitives, payload-type placeholders,
generated closures) or a reference to a store object. -/
inductive HVal where
  | leaf : Value → HVal
  | ref : Nat → HVal

/-- A heap object: ordered fields holding heap values. -/
abbrev HObj := List (String × HVal)

/-- The store: objects addressed by allocation index. -/
abbrev Store := List HObj

/-- Allocate a fresh object; its address is the previous store size. -/
def alloc (σ : Store) (o : HObj) : Store × Nat := (σ ++ [o], σ.length)

/-- Dereference an address (the model never reads dangling addresses on the
paths the source takes). -/
def readObj (σ : Store) (a : Nat) : HObj := (σ[a]?).getD []

/-- Property assignment `obj[k] = v` on the object at address `a`. -/
def write (σ : Store) (a : Nat) (k : String) (v : HVal) : Store :=
  σ.set a (setProp (readObj σ a) k v)

/-- `union.types`: the address stored under the bundle's `types` property
(src 503: the bundle always stores its schema object there). -/
def typesAddrOf (σ : Store) (b : Nat) : Nat :=
  match getProp? (readObj σ b) "types" with
  | some (HVal.ref a) => a
  | _ => 0

/-- `Object.keys(types[names[0]])` at the heap level (src 611). -/
def variationKeysH (σ : Store) (tfields : HObj) : List String :=
  match tfields with
  | (_, HVal.ref a) :: _ => (readObj σ a).map Prod.fst
  | _ => []

/-- Assign a list of properties onto the object at `a`, in order (the
`forEach` loops of src 631-641, 658-668, 686-696, 729-761, 800-832,
877-887). -/
def writeEntries (a : Nat) : Store → List (String × HVal) → Store
  | σ, [] => σ
  | σ, (k, v) :: rest => writeEntries a (write σ a k v) rest

/-- Allocate one generated function-object and assign one scoped function
per key onto it (`defaultOf`/`defaultIs` plus their `forEach` decoration).
The assigned closures capture only strings, hence leaves. -/
def buildFnTable (σ : Store) (keys : List String) : Store × Nat :=
  let p := alloc σ []
  (writeEntries p.2 p.1 (keys.map (fun k => (k, HVal.leaf .vUndefined))), p.2)

/-- Build one function-table per key (the `reduce` of src 613-647 and
649-674 and the per-name/per-variation sub-bundles of src 895-1037),
accumulating `(key, address)` entries. -/
def buildSubTables (inner : List String) : Store → HObj → List String → Store × HObj
  | σ, acc, [] => (σ, acc)
  | σ, acc, k :: rest =>
      let r := buildFnTable σ inner
      buildSubTables inner r.1 (acc ++ [(k, HVal.ref r.2)]) rest

/-- Build `ofAll`/`isAll`: the per-name and per-variation tables, then the
root callable, then the `forEach` loops assigning the tables onto the root
(src 677-696, 840-887). -/
def buildFamily (σ : Store) (names variations : List String) : Store × Nat :=
  let nt := buildSubTables variations σ [] names
  let vt := buildSubTables names nt.1 nt.2 variations
  let root := alloc vt.1 []
  (writeEntries root.2 root.1 vt.2, root.2)

/-- `ofVariations(types)` at the heap level (src 599-1088): derive the index
sets, build the `of` and `is` families, the per-name and per-variation optic
sub-bundles, and allocate the bundle literal `{ types, of, is, fold, iso,
lensFromProp, ...forTypes, ...forVariations }`, which stores the `types`
argument by reference.  `fold`, `iso` and `lensFromProp` are closures
capturing no mutable object, hence leaves. -/
def ofVariationsH (σ : Store) (typesAddr : Nat) : Store × Nat :=
  let tfields := readObj σ typesAddr
  let names := tfields.map Prod.fst
  let variations := variationKeysH σ tfields
  let ofp := buildFamily σ names variations
  let isp := buildFamily ofp.1 names variations
  let fn := buildSubTables variations isp.1 [] names
  let fv := buildSubTables names fn.1 [] variations
  let base : HObj := [("types", HVal.ref typesAddr), ("of", HVal.ref ofp.2),
    ("is", HVal.ref isp.2), ("fold", HVal.leaf .vUndefined),
    ("iso", HVal.leaf .vUndefined), ("lensFromProp", HVal.leaf .vUndefined)]
  alloc fv.1 ((fn.2 ++ fv.2).foldl (fun acc p => setProp acc p.1 p.2) base)

/-- The `reduce` shared by `omit` (src 1139-1148, keep = not omitted) and
`pick` (src 1178-1187, keep = picked): starting from a fresh `{}`, each kept
key evaluates `{ ...localTypes, [key]: union.types[key] }` — allocating a
fresh object — while a skipped key passes the accumulator through. -/
def filterFoldH (keep : String → Bool) : Store → Nat → List (String × HVal) → Store × Nat
  | σ, acc, [] => (σ, acc)
  | σ, acc, (k, hv) :: rest =>
      if keep k then
        let p := alloc σ (setProp (readObj σ acc) k hv)
        filterFoldH keep p.1 p.2 rest
      else filterFoldH keep σ acc rest

/-- The `filteredTypes` object built by `omit` (src 1139-1148). -/
def omitTypesH (σ : Store) (b : Nat) (omittedKeys : List String) : Store × Nat :=
  let e := alloc σ []
  filterFoldH (fun k => !(omittedKeys.contains k)) e.1 e.2 (readObj σ (typesAddrOf σ b))

/-- `omit(union, omittedKeys)` (src 1123-1151). -/
def omitH (σ : Store) (b : Nat) (omittedKeys : List String) : Store × Nat :=
  let t := omitTypesH σ b omittedKeys
  ofVariationsH t.1 t.2

/-- The `filteredTypes` object built by `pick` (src 1178-1187). -/
def pickTypesH (σ : Store) (b : Nat) (onlyKeys : List String) : Store × Nat :=
  let e := alloc σ []
  filterFoldH (fun k => onlyKeys.contains k) e.1 e.2 (readObj σ (typesAddrOf σ b))

/-- `pick(union, onlyKeys)` (src 1166-1190). -/
def pickH (σ : Store) (b : Nat) (onlyKeys : List String) : Store × Nat :=
  let t := pickTypesH σ b onlyKeys
  ofVariationsH t.1 t.2

/-- The merged types literal `{ ...union1.types, ...union2.types }`
(src 1234-1237): one fresh object, the second schema's entries assigned
last (later name wins). -/
def mergeTypesH (σ : Store) (b1 b2 : Nat) : Store × Nat :=
  let f1 := readObj σ (typesAddrOf σ b1)
  let f2 := readObj σ (typesAddrOf σ b2)
  alloc σ (f2.foldl (fun acc p => setProp acc p.1 p.2)
    (f1.foldl (fun acc p => setProp acc p.1 p.2) []))

/-- `merge(union1, union2)` (src 1213-1240). -/
def mergeH (σ : Store) (b1 b2 : Nat) : Store × Nat :=
  let t := mergeTypesH σ b1 b2
  ofVariationsH t.1 t.2

/-- The inner `reduce` of `omitVariations` (src 1276-1285): for each derived
variation not omitted, `{ ...localVariations, [variation]:
localType[variation] }` allocates a fresh table object. -/
def filterTableH (omittedVariations : List String) (tableFields : HObj) :
    Store → Nat → List String → Store × Nat
  | σ, acc, [] => (σ, acc)
  | σ, acc, v :: rest =>
      if omittedVariations.contains v then
        filterTableH omittedVariations tableFields σ acc rest
      else
        let p := alloc σ (setProp (readObj σ acc) v
          ((getProp? tableFields v).getD (HVal.leaf .vUndefined)))
        filterTableH omittedVariations tableFields p.1 p.2 rest

/-- The outer `reduce` of `omitVariations` (src 1273-1291): per name, build
the filtered variation table from a fresh `{}`, then
`{ ...localTypes, [name]: filteredType }` allocates a fresh types object. -/
def omitVariationsFoldH (omittedVariations variations : List String) :
    Store → Nat → List (String × HVal) → Store × Nat
  | σ, acc, [] => (σ, acc)
  | σ, acc, (name, tv) :: rest =>
      let tableFields := match tv with | HVal.ref a => readObj σ a | _ => []
      let q := alloc σ []
      let r := filterTableH omittedVariations tableFields q.1 q.2 variations
      let s := alloc r.1 (setProp (readObj r.1 acc) name (HVal.ref r.2))
      omitVariationsFoldH omittedVariations variations s.1 s.2 rest

/-- The `filteredTypes` object built by `omitVariations` (src 1270-1291). -/
def omitVariationsTypesH (σ : Store) (b : Nat) (omittedVariations : List String) :
    Store × Nat :=
  let tfields := readObj σ (typesAddrOf σ b)
  let variations := variationKeysH σ tfields
  let e := alloc σ []
  omitVariationsFoldH omittedVariations variations e.1 e.2 tfields

/-- `omitVariations(union, omittedVariations)` (src 1255-1294). -/
def omitVariationsH (σ : Store) (b : Nat) (omittedVariations : List String) :
    Store × Nat :=
  let t := omitVariationsTypesH σ b omittedVariations
  ofVariationsH t.1 t.2

/-! ## Store-extension lemmas -/

/-- `σ2` extends `σ1`: no pre-existing object was touched, only fresh ones
appended. -/
def StoreExt (σ1 σ2 : Store) : Prop :=
  σ1.length ≤ σ2.length ∧ ∀ i, i < σ1.length → σ2[i]? = σ1[i]?

theorem storeExt_refl (σ : Store) : StoreExt σ σ :=
  ⟨Nat.le_refl _, fun _ _ => rfl⟩

theorem storeExt_trans {σ1 σ2 σ3 : Store} (h12 : StoreExt σ1 σ2) (h23 : StoreExt σ2 σ3) :
    StoreExt σ1 σ3 :=
  ⟨Nat.le_trans h12.1 h23.1, fun i hi => (h23.2 i (Nat.lt_of_lt_of_le hi h12.1)).trans (h12.2 i hi)⟩

theorem storeExt_alloc (σ : Store) (o : HObj) : StoreExt σ (alloc σ o).1 := by
  refine ⟨by simp [alloc], fun i hi => ?_⟩
  simp [alloc, List.getElem?_append_left hi]

theorem storeExt_write {σ0 σ : Store} (h : StoreExt σ0 σ) {a : Nat}
    (ha : σ0.length ≤ a) (k : String) (v : HVal) : StoreExt σ0 (write σ a k v) := by
  refine ⟨by simpa [write] using h.1, fun i hi => ?_⟩
  have hne : a ≠ i := Nat.ne_of_gt (Nat.lt_of_lt_of_le hi ha)
  simpa [write, List.getElem?_set_ne hne] using h.2 i hi

theorem writeEntries_ext {σ0 : Store} {a : Nat} (ha : σ0.length ≤ a) :
    ∀ (es : List (String × HVal)) (σ : Store), StoreExt σ0 σ →
      StoreExt σ0 (writeEntries a σ es)
  | [], _, h => h
  | (k, v) :: rest, σ, h => writeEntries_ext ha rest (write σ a k v) (storeExt_write h ha k v)

theorem buildFnTable_ext {σ0 σ : Store} (h : StoreExt σ0 σ) (keys : List String) :
    StoreExt σ0 (buildFnTable σ keys).1 ∧ σ.length ≤ (buildFnTable σ keys).2 := by
  refine ⟨?_, Nat.le_refl _⟩
  exact writeEntries_ext h.1 _ _ (storeExt_trans h (storeExt_alloc σ []))

theorem buildSubTables_ext (inner : List String) :
    ∀ (ks : List String) {σ0 σ : Store} (_ : StoreExt σ0 σ) (acc : HObj),
      StoreExt σ0 (buildSubTables inner σ acc ks).1
  | [], _, _, h, _ => h
  | k :: rest, σ0, σ, h, acc => by
      have hr := buildFnTable_ext h inner
      exact buildSubTables_ext inner rest hr.1 (acc ++ [(k, HVal.ref (buildFnTable σ inner).2)])

theorem buildFamily_ext {σ0 σ : Store} (h : StoreExt σ0 σ) (names variations : List String) :
    StoreExt σ0 (buildFamily σ names variations).1 ∧
      σ.length ≤ (buildFamily σ names variations).2 := by
  have hnt : StoreExt σ0 (buildSubTables variations σ [] names).1 :=
    buildSubTables_ext variations names h []
  have hnt' : StoreExt σ (buildSubTables variations σ [] names).1 :=
    buildSubTables_ext variations names (storeExt_refl σ) []
  have hvt : StoreExt σ0 (buildSubTables names (buildSubTables variations σ [] names).1
      (buildSubTables variations σ [] names).2 variations).1 :=
    buildSubTables_ext names variations hnt _
  have hvt' : StoreExt σ (buildSubTables names (buildSubTables variations σ [] names).1
      (buildSubTables variations σ [] names).2 variations).1 :=
    buildSubTables_ext names variations hnt' _
  exact ⟨writeEntries_ext (Nat.le_trans h.1 hvt'.1) _ _
    (storeExt_trans hvt (storeExt_alloc _ [])), hvt'.1⟩

theorem ofVariationsH_ext (σ : Store) (ta : Nat) :
    StoreExt σ (ofVariationsH σ ta).1 ∧ σ.length ≤ (ofVariationsH σ ta).2 := by
  have h1 := buildFamily_ext (storeExt_refl σ) ((readObj σ ta).map Prod.fst)
    (variationKeysH σ (readObj σ ta))
  have h2 := buildFamily_ext h1.1 ((readObj σ ta).map Prod.fst)
    (variationKeysH σ (readObj σ ta))
  have h3 := buildSubTables_ext (variationKeysH σ (readObj σ ta))
    ((readObj σ ta).map Prod.fst) h2.1 ([] : HObj)
  have h4 := buildSubTables_ext ((readObj σ ta).map Prod.fst)
    (variationKeysH σ (readObj σ ta)) h3 ([] : HObj)
  exact ⟨storeExt_trans h4 (storeExt_alloc _ _), h4.1⟩

theorem filterFoldH_ext (keep : String → Bool) :
    ∀ (es : List (String × HVal)) {σ0 : Store} (σ : Store) (acc : Nat),
      StoreExt σ0 σ → σ0.length ≤ acc →
      StoreExt σ0 (filterFoldH keep σ acc es).1 ∧
        σ0.length ≤ (filterFoldH keep σ acc es).2
  | [], _, _, _, h, hacc => ⟨h, hacc⟩
  | (k, hv) :: rest, σ0, σ, acc, h, hacc => by
      unfold filterFoldH
      by_cases hk : keep k = true
      · rw [if_pos hk]
        exact filterFoldH_ext keep rest _ _
          (storeExt_trans h (storeExt_alloc _ _)) h.1
      · rw [if_neg hk]
        exact filterFoldH_ext keep rest _ _ h hacc

theorem filterTableH_ext (ov : List String) (tf : HObj) :
    ∀ (vs : List String) {σ0 : Store} (σ : Store) (acc : Nat),
      StoreExt σ0 σ → σ0.length ≤ acc →
      StoreExt σ0 (filterTableH ov tf σ acc vs).1 ∧
        σ0.length ≤ (filterTableH ov tf σ acc vs).2
  | [], _, _, _, h, hacc => ⟨h, hacc⟩
  | v :: rest, σ0, σ, acc, h, hacc => by
      unfold filterTableH
      by_cases hv : ov.contains v = true
      · rw [if_pos hv]
        exact filterTableH_ext ov tf rest _ _ h hacc
      · rw [if_neg hv]
        exact filterTableH_ext ov tf rest _ _
          (storeExt_trans h (storeExt_alloc _ _)) h.1

theorem omitVariationsFoldH_ext (ov vs : List String) :
    ∀ (es : List (String × HVal)) {σ0 : Store} (σ : Store) (acc : Nat),
      StoreExt σ0 σ → σ0.length ≤ acc →
      StoreExt σ0 (omitVariationsFoldH ov vs σ acc es).1 ∧
        σ0.length ≤ (omitVariationsFoldH ov vs σ acc es).2
  | [], _, _, _, h, hacc => ⟨h, hacc⟩
  | (name, tv) :: rest, σ0, σ, acc, h, hacc => by
      unfold omitVariationsFoldH
      have hq : StoreExt σ0 (alloc σ ([] : HObj)).1 :=
        storeExt_trans h (storeExt_alloc σ [])
      have hr := filterTableH_ext ov
        (match tv with | HVal.ref a => readObj σ a | _ => []) vs
        (alloc σ ([] : HObj)).1 (alloc σ ([] : HObj)).2 hq h.1
      exact omitVariationsFoldH_ext ov vs rest _ _
        (storeExt_trans hr.1 (storeExt_alloc _ _)) hr.1.1

theorem omitTypesH_ext (σ : Store) (b : Nat) (ks : List String) :
    StoreExt σ (omitTypesH σ b ks).1 ∧ σ.length ≤ (omitTypesH σ b ks).2 :=
  filterFoldH_ext _ _ _ _ (storeExt_alloc σ []) (Nat.le_refl _)

theorem pickTypesH_ext (σ : Store) (b : Nat) (ks : List String) :
    StoreExt σ (pickTypesH σ b ks).1 ∧ σ.length ≤ (pickTypesH σ b ks).2 :=
  filterFoldH_ext _ _ _ _ (storeExt_alloc σ []) (Nat.le_refl _)

theorem mergeTypesH_ext (σ : Store) (b1 b2 : Nat) :
    StoreExt σ (mergeTypesH σ b1 b2).1 ∧ σ.length ≤ (mergeTypesH σ b1 b2).2 :=
  ⟨storeExt_alloc σ _, Nat.le_refl _⟩

theorem omitVariationsTypesH_ext (σ : Store) (b : Nat) (vs : List String) :
    StoreExt σ (omitVariationsTypesH σ b vs).1 ∧
      σ.length ≤ (omitVariationsTypesH σ b vs).2 :=
  omitVariationsFoldH_ext _ _ _ _ _ (storeExt_alloc σ []) (Nat.le_refl _)

/-! ## Guard evaluation on constructed entities -/

theorem isGlobal_entity (names variations : List String) (n v : String) (p : Value) :
    isGlobal names variations (ofAll n v p) =
      .ok (names.contains n && variations.contains v) := by
  have hshape : hasEntityShape [("__OPAQUE__", Value.vStr "__OPAQUE__"),
      ("__OPAQUE_KEY__", Value.vStr n), ("__OPAQUE_VARIATION__", Value.vStr v),
      ("value", p)] = true := rfl
  have hkey : getProp? [("__OPAQUE__", Value.vStr "__OPAQUE__"),
      ("__OPAQUE_KEY__", Value.vStr n), ("__OPAQUE_VARIATION__", Value.vStr v),
      ("value", p)] "__OPAQUE_KEY__" = some (Value.vStr n) := rfl
  have hvar : getProp? [("__OPAQUE__", Value.vStr "__OPAQUE__"),
      ("__OPAQUE_KEY__", Value.vStr n), ("__OPAQUE_VARIATION__", Value.vStr v),
      ("value", p)] "__OPAQUE_VARIATION__" = some (Value.vStr v) := rfl
  by_cases hc : n ∈ names <;> by_cases hd : v ∈ variations <;>
    simp [ofAll, mkEntity, isGlobal, hshape, hkey, hvar, includesStr, hc, hd]

theorem isName_entity (name : String) (variations : List String) (n v : String) (p : Value) :
    isName name variations (ofAll n v p) =
      .ok ((n == name) && variations.contains v) := by
  have hshape : hasEntityShape [("__OPAQUE__", Value.vStr "__OPAQUE__"),
      ("__OPAQUE_KEY__", Value.vStr n), ("__OPAQUE_VARIATION__", Value.vStr v),
      ("value", p)] = true := rfl
  have hkey : getProp? [("__OPAQUE__", Value.vStr "__OPAQUE__"),
      ("__OPAQUE_KEY__", Value.vStr n), ("__OPAQUE_VARIATION__", Value.vStr v),
      ("value", p)] "__OPAQUE_KEY__" = some (Value.vStr n) := rfl
  have hvar : getProp? [("__OPAQUE__", Value.vStr "__OPAQUE__"),
      ("__OPAQUE_KEY__", Value.vStr n), ("__OPAQUE_VARIATION__", Value.vStr v),
      ("value", p)] "__OPAQUE_VARIATION__" = some (Value.vStr v) := rfl
  cases hc : n == name <;> by_cases hd : v ∈ variations <;>
    simp [ofAll, mkEntity, isName, hshape, hkey, hvar, includesStr, strictEqStr, hc, hd]

theorem isVariation_entity (variation : String) (names : List String) (n v : String)
    (p : Value) :
    isVariation variation names (ofAll n v p) =
      .ok ((v == variation) && names.contains n) := by
  have hshape : hasEntityShape [("__OPAQUE__", Value.vStr "__OPAQUE__"),
      ("__OPAQUE_KEY__", Value.vStr n), ("__OPAQUE_VARIATION__", Value.vStr v),
      ("value", p)] = true := rfl
  have hkey : getProp? [("__OPAQUE__", Value.vStr "__OPAQUE__"),
      ("__OPAQUE_KEY__", Value.vStr n), ("__OPAQUE_VARIATION__", Value.vStr v),
      ("value", p)] "__OPAQUE_KEY__" = some (Value.vStr n) := rfl
  have hvar : getProp? [("__OPAQUE__", Value.vStr "__OPAQUE__"),
      ("__OPAQUE_KEY__", Value.vStr n), ("__OPAQUE_VARIATION__", Value.vStr v),
      ("value", p)] "__OPAQUE_VARIATION__" = some (Value.vStr v) := rfl
  cases hc : v == variation <;> by_cases hd : n ∈ names <;>
    simp [ofAll, mkEntity, isVariation, hshape, hkey, hvar, includesStr, strictEqStr, hc, hd]

theorem isNameVariation_entity (name variation n v : String) (p : Value) :
    isNameVariation name variation (ofAll n v p) =
      .ok ((n == name) && (v == variation)) := by
  have hshape : hasEntityShape [("__OPAQUE__", Value.vStr "__OPAQUE__"),
      ("__OPAQUE_KEY__", Value.vStr n), ("__OPAQUE_VARIATION__", Value.vStr v),
      ("value", p)] = true := rfl
  have hkey : getProp? [("__OPAQUE__", Value.vStr "__OPAQUE__"),
      ("__OPAQUE_KEY__", Value.vStr n), ("__OPAQUE_VARIATION__", Value.vStr v),
      ("value", p)] "__OPAQUE_KEY__" = some (Value.vStr n) := rfl
  have hvar : getProp? [("__OPAQUE__", Value.vStr "__OPAQUE__"),
      ("__OPAQUE_KEY__", Value.vStr n), ("__OPAQUE_VARIATION__", Value.vStr v),
      ("value", p)] "__OPAQUE_VARIATION__" = some (Value.vStr v) := rfl
  cases hc : n == name <;> cases hd : v == variation <;>
    simp [ofAll, mkEntity, isNameVariation, hshape, hkey, hvar, strictEqStr, hc, hd]

/-! ## Concrete schemas for witnesses -/

/-- The two-name, default-variation schema of the spec's scenario:
`Union.of({ One, Two })` normalizes both names to a `{ default: _ }`
table. -/
def oneTwoSchema : Schema :=
  [("One", [("default", Value.vUndefined)]),
   ("Two", [("default", Value.vUndefined)])]

/-- A two-variation `ofVariations` schema whose variation set does not
contain `default`. -/
def sentPendingSchema : Schema :=
  [("Text", [("Sent", Value.vUndefined), ("Pending", Value.vUndefined)]),
   ("Image", [("Sent", Value.vUndefined), ("Pending", Value.vUndefined)])]

/-! ## The claims -/

/-- Claim C1: the spec asserts the global guard `is(thing)` is total over
arbitrary input — a boolean, `false` on any non-entity, and it never
throws, `null` included.  The code violates this at exactly `null`:
`typeof null === 'object'` passes the first test, and then
`'__OPAQUE__' in null` throws a `TypeError` (modelled as `.error ()`).  On
the other non-entity inputs of the claim — a number, a plain object, a
string — the guard indeed returns `false`.  Evaluated on the normalized
scenario schema `{ One: { default }, Two: { default } }`. -/
theorem c1_is_throws_on_null :
    isGlobal (namesOf oneTwoSchema) (variationsOf oneTwoSchema) Value.vNull =
      .error () ∧
    isGlobal (namesOf oneTwoSchema) (variationsOf oneTwoSchema) (Value.vNum 2) =
      .ok false ∧
    isGlobal (namesOf oneTwoSchema) (variationsOf oneTwoSchema)
      (Value.vObj [("a", Value.vNum 1)]) = .ok false ∧
    isGlobal (namesOf oneTwoSchema) (variationsOf oneTwoSchema)
      (Value.vStr "test") = .ok false :=
  ⟨rfl, rfl, rfl, rfl⟩

/-- Claim C2 (counterexample): the round-trip
`iso.reverseGet(iso.get(of(n, v, p)))` does not return `of(n, v, p)` for
every payload `p`.  At the non-object payload `5`, the spread
`{ _tag, _variation, ...5 }` contributes no properties, so the round trip
rebuilds the entity with payload `{}` instead of `5`. -/
theorem c2_iso_round_trip_counterexample :
    isoReverseGet (isoGet (ofAll "One" "default" (Value.vNum 5))) ≠
      ofAll "One" "default" (Value.vNum 5) := by
  intro h
  have h2 : Value.vObj [] = Value.vNum 5 :=
    congrArg (fun e => jsGet e "value") h
  exact Value.noConfusion h2

/-- Claim C2 (amended): for every Name `n` of the schema, Variation `v` of
the derived variation set, and payload that is an object with
duplicate-free keys none of which is `_tag` or `_variation`, the global
isomorphism round-trips: `reverseGet(get(of(n, v, p)))` is structurally
equal to `of(n, v, p)`. -/
theorem c2_iso_round_trip (types : Schema) (n v : String)
    (fs : List (String × Value))
    (_hn : n ∈ namesOf types) (_hv : v ∈ variationsOf types)
    (hnd : (fs.map Prod.fst).Nodup)
    (ht : "_tag" ∉ fs.map Prod.fst) (hvr : "_variation" ∉ fs.map Prod.fst) :
    isoReverseGet (isoGet (ofAll n v (.vObj fs))) = ofAll n v (.vObj fs) := by
  rw [isoGet_entity n v fs hnd ht hvr, isoReverseGet_tagged n v fs ht hvr]

/-- Claim C2 witness: the amended round-trip at the scenario schema, name
`One`, variation `default`, payload `{ a: 1 }`. -/
theorem c2_iso_round_trip_witness :
    isoReverseGet (isoGet (ofAll "One" "default"
      (Value.vObj [("a", Value.vNum 1)]))) =
      ofAll "One" "default" (Value.vObj [("a", Value.vNum 1)]) :=
  c2_iso_round_trip oneTwoSchema "One" "default" [("a", Value.vNum 1)]
    (by decide) (by decide) (by decide) (by decide) (by decide)

/-- Claim C3: for every schema Name `n`, derived Variation `v` and payload
`p`, the five constructor access paths build structurally identical
entities: `of(n, v, p)`, `of[n](v, p)`, `of[n][v](p)`, `of[v](n, p)` and
`of[v][n](p)` all evaluate to the same object literal. -/
theorem c3_access_paths (types : Schema) (n v : String) (p : Value)
    (_hn : n ∈ namesOf types) (_hv : v ∈ variationsOf types) :
    ofAll n v p = ofNameCall n [.vStr v, p] ∧
    ofAll n v p = ofNameVariation n v p ∧
    ofAll n v p = ofVariationCall v n p ∧
    ofAll n v p = ofVariationName v n p :=
  ⟨rfl, rfl, rfl, rfl⟩

/-- Claim C3 witness: the five access paths agree at the scenario schema,
name `One`, variation `default`, payload `7`. -/
theorem c3_access_paths_witness :
    ofAll "One" "default" (Value.vNum 7) =
      ofNameCall "One" [Value.vStr "default", Value.vNum 7] :=
  (c3_access_paths oneTwoSchema "One" "default" (Value.vNum 7)
    (by decide) (by decide)).1

/-- Claim C4: for every entity `e = of(n, v, p)` built from a schema Name
`n` and derived Variation `v`, the guards accept it on every matching path
— `is(e)`, `is[n](e)`, `is[v](e)`, `is[n][v](e)` are all `true` — and for
every other schema Name `n2 ≠ n`, `is[n2](e)` is `false`. -/
theorem c4_guard_soundness (types : Schema) (n v n2 : String) (p : Value)
    (hn : n ∈ namesOf types) (hv : v ∈ variationsOf types)
    (_hn2 : n2 ∈ namesOf types) (hne : n2 ≠ n) :
    isGlobal (namesOf types) (variationsOf types) (ofAll n v p) = .ok true ∧
    isName n (variationsOf types) (ofAll n v p) = .ok true ∧
    isVariation v (namesOf types) (ofAll n v p) = .ok true ∧
    isNameVariation n v (ofAll n v p) = .ok true ∧
    isName n2 (variationsOf types) (ofAll n v p) = .ok false := by
  refine ⟨?_, ?_, ?_, ?_, ?_⟩
  · rw [isGlobal_entity]
    simp [hn, hv]
  · rw [isName_entity]
    simp [hv]
  · rw [isVariation_entity]
    simp [hn]
  · rw [isNameVariation_entity]
    simp
  · rw [isName_entity]
    simp [Ne.symm hne]

/-- Claim C4 witness: at the scenario schema, the entity
`of('One', 'default', 1)` is accepted by the global guard and rejected by
`is.Two`. -/
theorem c4_guard_soundness_witness :
    isGlobal (namesOf oneTwoSchema) (variationsOf oneTwoSchema)
      (ofAll "One" "default" (Value.vNum 1)) = .ok true :=
  (c4_guard_soundness oneTwoSchema "One" "default" "Two" (Value.vNum 1)
    (by decide) (by decide) (by decide) (by decide)).1

/-- Claim C5: every scoped per-(name, variation) isomorphism round-trips on
the bare payload: `get(reverseGet(p)) = p` for every payload, and
`reverseGet(get(e)) = e` for every `e = of[n][v](p)`; no `_tag`/`_variation`
wrapping is involved (the forward direction is the `value` property alone,
the backward direction is the scoped constructor). -/
theorem c5_scoped_iso (types : Schema) (n v : String)
    (_hn : n ∈ namesOf types) (_hv : v ∈ variationsOf types) :
    (∀ p : Value, scopedGet (ofNameVariation n v p) = p) ∧
    (∀ p : Value,
      ofNameVariation n v (scopedGet (ofNameVariation n v p)) =
        ofNameVariation n v p) :=
  ⟨fun _ => rfl, fun _ => rfl⟩

/-- Claim C5 witness: the scoped round-trip at the scenario schema, name
`One`, variation `default`, payload `3`. -/
theorem c5_scoped_iso_witness :
    scopedGet (ofNameVariation "One" "default" (Value.vNum 3)) = Value.vNum 3 :=
  (c5_scoped_iso oneTwoSchema "One" "default" (by decide) (by decide)).1
    (Value.vNum 3)

/-- Claim C6: the name-scoped constructor `of[name]` is overloaded by
arity: called with exactly one argument, that argument is the payload and
the variation tag is the literal `default`; called with two arguments, the
first is the variation and the second the payload. -/
theorem c6_arity_overload (n v : String) (p value : Value) :
    ofNameCall n [p] = ofNameVariation n "default" p ∧
    ofNameCall n [.vStr v, value] = ofNameVariation n v value :=
  ⟨rfl, rfl⟩

/-- Claim C7: the normalizer derives the canonical Variation index set
exclusively from the first Name's table, in that table's key insertion
order: prepending any tails `rest`, `rest2` — rectangular or not — leaves
the derived set equal to the first table's keys, so the other Names'
tables are never inspected and non-rectangular schemas are accepted
silently. -/
theorem c7_variations_first_name (n : String) (table : List (String × Value))
    (rest rest2 : Schema) :
    variationsOf ((n, table) :: rest) = table.map Prod.fst ∧
    variationsOf ((n, table) :: rest) = variationsOf ((n, table) :: rest2) :=
  ⟨rfl, rfl⟩

/-- Claim C8 (counterexample): the lens set law fails as stated when the
payload object itself carries a `_tag` property.  With payload
`{ _tag: 'Z', a: 1 }` — on which the property `a` is present — setting `a`
through `lensFromProp('a')` rebuilds the entity with name tag `Z` instead
of the original `One` (and drops the payload's `_tag` property), because
the global isomorphism's spread lets the payload's `_tag` overwrite the
entity's, and its rest-destructuring then consumes it. -/
theorem c8_lens_laws_counterexample :
    jsGet (lensFromPropSet "a" (Value.vNum 2)
        (ofAll "One" "default"
          (Value.vObj [("_tag", Value.vStr "Z"), ("a", Value.vNum 1)])))
      "__OPAQUE_KEY__" ≠ Value.vStr "One" := by
  intro h
  have e : jsGet (lensFromPropSet "a" (Value.vNum 2)
      (ofAll "One" "default"
        (Value.vObj [("_tag", Value.vStr "Z"), ("a", Value.vNum 1)])))
      "__OPAQUE_KEY__" = Value.vStr "Z" := rfl
  exact absurd (Value.vStr.inj (e.symm.trans h)) (by decide)

/-- Claim C8 (amended): for a payload object with duplicate-free keys, none
of them `_tag` or `_variation`, and a property `k` present on it,
`lensFromProp(k).get(of(n, v, { ...payload, [k]: x })) = x`, and
`lensFromProp(k).set(y)(of(n, v, payload))` is exactly
`of(n, v, { ...payload, [k]: y })` — the entity with the same name tag, the
same variation tag, `k` updated in place and every other payload property
unchanged. -/
theorem c8_lens_laws (n v k : String) (fs : List (String × Value)) (x y : Value)
    (hnd : (fs.map Prod.fst).Nodup)
    (ht : "_tag" ∉ fs.map Prod.fst) (hvr : "_variation" ∉ fs.map Prod.fst)
    (hk : k ∈ fs.map Prod.fst) :
    lensFromPropGet k (ofAll n v (.vObj (setProp fs k x))) = x ∧
    lensFromPropSet k y (ofAll n v (.vObj fs)) =
      ofAll n v (.vObj (setProp fs k y)) := by
  have hkt : k ≠ "_tag" := fun h => ht (h ▸ hk)
  have hkv : k ≠ "_variation" := fun h => hvr (h ▸ hk)
  constructor
  · have hkeys : (setProp fs k x).map Prod.fst = fs.map Prod.fst :=
      map_fst_setProp_of_mem fs k x hk
    have h1 : isoGet (ofAll n v (.vObj (setProp fs k x))) =
        .vObj (("_tag", .vStr n) :: ("_variation", .vStr v) :: setProp fs k x) :=
      isoGet_entity n v _ (hkeys.symm ▸ hnd) (hkeys.symm ▸ ht) (hkeys.symm ▸ hvr)
    show jsGet (isoGet (ofAll n v (.vObj (setProp fs k x)))) k = x
    rw [h1]
    show (getProp? (("_tag", Value.vStr n) :: ("_variation", Value.vStr v) ::
      setProp fs k x) k).getD .vUndefined = x
    rw [show getProp? (("_tag", Value.vStr n) :: ("_variation", Value.vStr v) ::
        setProp fs k x) k = getProp? (setProp fs k x) k from by
      simp [getProp?, Ne.symm hkt, Ne.symm hkv]]
    rw [getProp?_setProp_self]
    rfl
  · have hkeys : (setProp fs k y).map Prod.fst = fs.map Prod.fst :=
      map_fst_setProp_of_mem fs k y hk
    have h2 : isoGet (ofAll n v (.vObj fs)) =
        .vObj (("_tag", .vStr n) :: ("_variation", .vStr v) :: fs) :=
      isoGet_entity n v fs hnd ht hvr
    show isoReverseGet (objAssign (isoGet (ofAll n v (.vObj fs))) k y) = _
    rw [h2]
    have h3 : objAssign (.vObj (("_tag", Value.vStr n) ::
        ("_variation", Value.vStr v) :: fs)) k y =
        .vObj (("_tag", Value.vStr n) :: ("_variation", Value.vStr v) ::
          setProp fs k y) := by
      show Value.vObj (setProp (("_tag", Value.vStr n) ::
        ("_variation", Value.vStr v) :: fs) k y) = _
      simp [setProp, Ne.symm hkt, Ne.symm hkv]
    rw [h3, isoReverseGet_tagged n v (setProp fs k y)
      (hkeys.symm ▸ ht) (hkeys.symm ▸ hvr)]

/-- Claim C8 witness: at payload `{ a: 1 }`, reading `a` after overriding it
with `5` returns `5`. -/
theorem c8_lens_laws_witness :
    lensFromPropGet "a" (ofAll "One" "default"
      (.vObj (setProp [("a", Value.vNum 1)] "a" (Value.vNum 5)))) =
      Value.vNum 5 :=
  (c8_lens_laws "One" "default" "a" [("a", Value.vNum 1)]
    (Value.vNum 5) (Value.vNum 2)
    (by decide) (by decide) (by decide) (by decide)).1

/-- Claim C9: `omit`, `pick`, `merge` and `omitVariations` are pure and
non-mutating.  In the heap model: each operation leaves every pre-existing
store object untouched (`StoreExt`, so the input bundles — their `types`
objects included — are structurally unchanged), and both the bundle it
returns and the types object that bundle holds are freshly allocated
(addresses at or past the old store's size), never a view over the
input. -/
theorem c9_algebra_pure (σ : Store) (b1 b2 : Nat) (ks vs : List String) :
    (StoreExt σ (omitH σ b1 ks).1 ∧ σ.length ≤ (omitH σ b1 ks).2 ∧
      σ.length ≤ (omitTypesH σ b1 ks).2) ∧
    (StoreExt σ (pickH σ b1 ks).1 ∧ σ.length ≤ (pickH σ b1 ks).2 ∧
      σ.length ≤ (pickTypesH σ b1 ks).2) ∧
    (StoreExt σ (mergeH σ b1 b2).1 ∧ σ.length ≤ (mergeH σ b1 b2).2 ∧
      σ.length ≤ (mergeTypesH σ b1 b2).2) ∧
    (StoreExt σ (omitVariationsH σ b1 vs).1 ∧
      σ.length ≤ (omitVariationsH σ b1 vs).2 ∧
      σ.length ≤ (omitVariationsTypesH σ b1 vs).2) := by
  refine ⟨?_, ?_, ?_, ?_⟩
  · exact ⟨storeExt_trans (omitTypesH_ext σ b1 ks).1 (ofVariationsH_ext _ _).1,
      Nat.le_trans (omitTypesH_ext σ b1 ks).1.1 (ofVariationsH_ext _ _).2,
      (omitTypesH_ext σ b1 ks).2⟩
  · exact ⟨storeExt_trans (pickTypesH_ext σ b1 ks).1 (ofVariationsH_ext _ _).1,
      Nat.le_trans (pickTypesH_ext σ b1 ks).1.1 (ofVariationsH_ext _ _).2,
      (pickTypesH_ext σ b1 ks).2⟩
  · exact ⟨storeExt_trans (mergeTypesH_ext σ b1 b2).1 (ofVariationsH_ext _ _).1,
      Nat.le_trans (mergeTypesH_ext σ b1 b2).1.1 (ofVariationsH_ext _ _).2,
      (mergeTypesH_ext σ b1 b2).2⟩
  · exact ⟨storeExt_trans (omitVariationsTypesH_ext σ b1 vs).1
        (ofVariationsH_ext _ _).1,
      Nat.le_trans (omitVariationsTypesH_ext σ b1 vs).1.1
        (ofVariationsH_ext _ _).2,
      (omitVariationsTypesH_ext σ b1 vs).2⟩

/-- Claim C10: the arity-based `default` is applied unconditionally, not
only when the variation set is `{default}`: for any schema Name `n` of a
schema whose derived variation set does not contain `default`, the
one-argument call `of[n](p)` still builds an entity whose variation tag is
the literal `default`, and the global guard then rejects that very
entity. -/
theorem c10_default_unconditional (types : Schema) (n : String) (p : Value)
    (_hn : n ∈ namesOf types) (hd : "default" ∉ variationsOf types) :
    ofNameCall n [p] = ofAll n "default" p ∧
    isGlobal (namesOf types) (variationsOf types) (ofNameCall n [p]) =
      .ok false := by
  refine ⟨rfl, ?_⟩
  show isGlobal (namesOf types) (variationsOf types) (ofAll n "default" p) =
    .ok false
  rw [isGlobal_entity]
  simp [hd]

/-- Claim C10 witness: on the Sent/Pending schema, `of.Text(1)` carries
variation `default` and the global guard rejects it. -/
theorem c10_default_unconditional_witness :
    isGlobal (namesOf sentPendingSchema) (variationsOf sentPendingSchema)
      (ofNameCall "Text" [Value.vNum 1]) = .ok false :=
  (c10_default_unconditional sentPendingSchema "Text" (Value.vNum 1)
    (by decide) (by decide)).2

end OpaqueUnion
